import Mathlib

/-!
Verification development for the render-client core of the kajiya repository
(`src/render_client.rs`).

The embedding models usize arithmetic as `Nat`.  The single width-sensitive
operation in the source is the bitwise-and with the complement mask
`!(alignment - 1)` inside `append_buffer_data`; for a 64-bit usize that
complement is the value `2 ^ 64 - alignment`, which is how it is written here.
Since every bit of that mask lies below bit 64, `Nat.land` with it agrees with
the wrapped 64-bit computation whenever the other operand is below `2 ^ 64`
(theorems carry that bound as a hypothesis where it matters).  The `u32` fields
of the source (`frame_idx`, `BindlessImageHandle`, the `GpuMesh` offsets) are
modelled as `Nat` reduced modulo `2 ^ 32` exactly where the source performs a
`u32` store, cast or `overflowing_add`.

Fatal runtime failures of the source (failed `assert!`, `expect`, `unwrap`, or
an out-of-bounds slice index) are modelled with `Option`/paired results: a
failing operation yields `none` together with the state exactly as it was when
the program aborted.

External collaborators (the Vulkan device, the render-graph engine, the asset
types) are modelled at their interface boundary: object creation records the
descriptor the source hands to the device, descriptor-set updates on the GPU
are elided, and asset element types are carried abstractly as a byte layout
(size and alignment) plus the byte encoding of each element.
-/

namespace Kajiya

/-- Wrap-around modulus of the 64-bit `usize` type. -/
def USIZE : Nat := 2 ^ 64

/-- Wrap-around modulus of the `u32` type. -/
def U32 : Nat := 2 ^ 32

/-- Number of set bits among the 64 bits of a `usize` value; models
`usize::count_ones` from `assert!(alignment.count_ones() == 1)` in
`append_buffer_data` (render_client.rs line 96). -/
def count_ones64 (n : Nat) : Nat :=
  ((List.range 64).filter (fun i => n.testBit i)).length

/-- State of the byte region driven by `append_buffer_data`: the bytes of the
destination slice (`buf_slice`) and the write cursor (`buf_written`).  In the
renderer this is the Geometry Arena: the mapped vertex buffer plus
`vertex_buffer_written`. -/
structure PackState where
  bytes : List Nat
  written : Nat
deriving Repr, DecidableEq

/-- Overwrite of `data.length` bytes of `buf` starting at byte `start`; models
`dst.copy_from_slice(data)` after the in-bounds assertion
(render_client.rs lines 102-105). -/
def writeBytes (buf : List Nat) (start : Nat) (data : List Nat) : List Nat :=
  buf.take start ++ data ++ buf.drop (start + data.length)

/-- Shallow embedding of `append_buffer_data` (render_client.rs lines 93-112).
The element type `T` is represented by its layout: `align` is `align_of::<T>`,
`size` is `size_of::<T>`, and `data` lists the byte encoding of each element
(each of length `size` for a well-formed `T`).  The result is the returned
offset paired with the state after the call; a fatal assertion failure is
`none` together with the untouched input state, since both assertions in the
source fire before any byte is copied and before the cursor moves. -/
def append_buffer_data (align size : Nat) (st : PackState) (data : List (List Nat)) :
    Option Nat × PackState :=
  if data.length ≠ 0 then
    if count_ones64 align = 1 then
      let data_start := (st.written + align - 1) &&& (USIZE - align)
      let data_bytes := data.length * size
      if data_start + data_bytes ≤ st.bytes.length then
        (some data_start,
          { bytes := writeBytes st.bytes data_start data.flatten
            written := data_start + data_bytes })
      else
        (none, st)
    else
      (none, st)
  else
    (some 0, st)

/-- One call of the packer: the layout of the element type together with the
elements to append (models one `BufferBuilder::append::<T>` invocation). -/
structure AppendCall where
  align : Nat
  size : Nat
  data : List (List Nat)

/-- Run a sequence of `append_buffer_data` calls threading the pack state,
collecting the offset returned by each call. -/
def runAppends (st : PackState) : List AppendCall → List (Option Nat) × PackState
  | [] => ([], st)
  | c :: cs =>
    let r := append_buffer_data c.align c.size st c.data
    let rest := runAppends r.2 cs
    (r.1 :: rest.1, rest.2)

/-- Capacity of the mesh descriptor table (`MAX_GPU_MESHES`, line 57). -/
def MAX_GPU_MESHES : Nat := 1024

/-- Capacity in bytes of the geometry arena (`VERTEX_BUFFER_CAPACITY`, line 58). -/
def VERTEX_BUFFER_CAPACITY : Nat := 1024 * 1024 * 128

/-- Vulkan image/vertex formats used by the render client; interface model of
the external `vk::Format` enum, restricted to the constructors the source
mentions. -/
inductive VkFormat where
  | R32G32B32A32_SFLOAT
  | D24_UNORM_S8_UINT
  | R8G8B8A8_UNORM
  | R8G8B8A8_SRGB
  | R32G32B32_SFLOAT
  | R16G16B16A16_SFLOAT
deriving Repr, DecidableEq

/-- Interface model of the external `vk_sync::AccessType` enum: the variants
named by the source, plus a catch-all constructor for the remaining variants
a retired render graph may report. -/
inductive AccessType where
  | Nothing
  | AnyShaderReadOther
  | AnyShaderReadSampledImageOrUniformTexelBuffer
  | otherAccess (n : Nat)
deriving Repr, DecidableEq

/-- Interface model of `RayTracingGeometryType` (only `Triangle` is used). -/
inductive RayTracingGeometryType where
  | Triangle
deriving Repr, DecidableEq

/-- Interface model of `RayTracingGeometryPart` as filled in by `add_mesh`
(render_client.rs lines 443-452). -/
structure RayTracingGeometryPart where
  index_count : Nat
  index_offset : Nat
  max_vertex : Nat
deriving Repr, DecidableEq

/-- Interface model of `RayTracingGeometryDesc` as filled in by `add_mesh`
(render_client.rs lines 437-453); buffer fields hold 64-bit device
addresses. -/
structure RayTracingGeometryDesc where
  geometry_type : RayTracingGeometryType
  vertex_buffer : Nat
  index_buffer : Nat
  vertex_format : VkFormat
  vertex_stride : Nat
  parts : List RayTracingGeometryPart
deriving Repr, DecidableEq

/-- Interface model of `RayTracingBottomAccelerationDesc`. -/
structure RayTracingBottomAccelerationDesc where
  geometries : List RayTracingGeometryDesc
deriving Repr, DecidableEq

/-- Interface model of the opaque `RayTracingAcceleration` object returned by
the device: the model records the description the source handed to the
external build call, so a bottom-level structure carries its geometry
description and a top-level structure carries the list of instanced
bottom-level structures. -/
inductive RayTracingAcceleration where
  | bottom (desc : RayTracingBottomAccelerationDesc)
  | top (instances : List RayTracingAcceleration)
deriving Repr

/-- Instance list of a top-level acceleration structure (empty for a
bottom-level structure, which instances nothing). -/
def RayTracingAcceleration.instances : RayTracingAcceleration → List RayTracingAcceleration
  | .bottom _ => []
  | .top is => is

/-- Model of `UploadedTriMesh` as pushed by `add_mesh` (lines 466-469):
`index_buffer_offset` is a `u64`, `index_count` a `u32`. -/
structure UploadedTriMesh where
  index_buffer_offset : Nat
  index_count : Nat
deriving Repr, DecidableEq

/-- The `GpuMesh` descriptor record (render_client.rs lines 46-55): six `u32`
byte offsets into the geometry arena. -/
structure GpuMesh where
  vertex_core_offset : Nat
  vertex_uv_offset : Nat
  vertex_mat_offset : Nat
  vertex_aux_offset : Nat
  mat_data_offset : Nat
  index_offset : Nat
deriving Repr, DecidableEq

/-- Model of `TemporalImage` (render_client.rs lines 703-708): the owned image
resource (an opaque id), the last-known access state, and the optional pending
render-graph export handle. -/
structure TemporalImage where
  resource : Nat
  access_type : AccessType
  last_rg_handle : Option Nat
deriving Repr, DecidableEq

/-- Model of `TemporalImage::new` (render_client.rs lines 712-718). -/
def TemporalImage.new (resource : Nat) : TemporalImage :=
  { resource := resource, access_type := .Nothing, last_rg_handle := none }

/-- The render mode enum (render_client.rs lines 80-84). -/
inductive RenderMode where
  | Standard
  | Reference
deriving Repr, DecidableEq

/-- Interface model of a created device image: the format and 2d extent the
source requests from the external `create_image` call. -/
structure Image where
  format : VkFormat
  extent : Nat × Nat
deriving Repr, DecidableEq

/-- Interface model of `TexGamma` from the asset crate (outside src/): the two
variants `add_image` matches on. -/
inductive TexGamma where
  | Linear
  | Srgb
deriving Repr, DecidableEq

/-- Interface model of `TexParams` restricted to the field `add_image`
reads. -/
structure TexParams where
  gamma : TexGamma
deriving Repr, DecidableEq

/-- Interface model of `RawRgba8Image` from the asset crate (outside src/):
raw pixel bytes plus 2d dimensions. -/
structure RawRgba8Image where
  data : List Nat
  dimensions : Nat × Nat
deriving Repr, DecidableEq

/-- Interface model of an `ImageLut`: the opaque id of the procedurally
computed image owned by the lut. -/
structure ImageLut where
  image : Nat
deriving Repr, DecidableEq

/-- Byte layout and contents of a typed Rust slice `&[T]`: the alignment and
size of `T` and the byte encoding of each element.  The element types of the
mesh streams (`PackedVertex`, uv, material id, color and material records)
live in the asset crate outside src/, so they are carried abstractly by their
layout; theorems quantify over it. -/
structure TypedSlice where
  align : Nat
  size : Nat
  data : List (List Nat)
deriving Repr, DecidableEq

/-- Little-endian byte encoding of a `u32` value (4 bytes); `align_of::<u32>`
and `size_of::<u32>` are both 4. -/
def u32_bytes (v : Nat) : List Nat :=
  [v % 256, v / 2 ^ 8 % 256, v / 2 ^ 16 % 256, v / 2 ^ 24 % 256]

/-- Interface model of `PackedTriangleMesh` from the asset crate (outside
src/), restricted to the six stream fields `add_mesh` reads.  The index
stream is a `Vec<u32>` and is carried by value; the other five streams are
carried as typed slices with abstract element layout. -/
structure PackedTriangleMesh where
  indices : List Nat
  verts : TypedSlice
  uvs : TypedSlice
  material_ids : TypedSlice
  colors : TypedSlice
  materials : TypedSlice
deriving Repr, DecidableEq

/-- Model of the `VickiRenderClient` state (render_client.rs lines 60-78).
The purely external handles (`device`, `raster_simple_render_pass`,
`bindless_descriptor_set`) are omitted; `vertex_buffer` combines the mapped
arena bytes with the `vertex_buffer_written` cursor, and `vertex_buffer_da`
is the opaque device base address of the arena reported by the device. -/
structure VickiRenderClient where
  accum_img : TemporalImage
  reset_reference_accumulation : Bool
  meshes : List UploadedTriMesh
  mesh_blas : List RayTracingAcceleration
  tlas : Option RayTracingAcceleration
  mesh_buffer : List GpuMesh
  vertex_buffer : PackState
  vertex_buffer_da : Nat
  bindless_images : List Image
  image_luts : List ImageLut
  next_bindless_image_id : Nat
  render_mode : RenderMode
  frame_idx : Nat

/-- Model of `add_bindless_image_view` (render_client.rs lines 337-361): the
handle is the current `next_bindless_image_id` truncated to `u32`, the counter
advances by one, and the Vulkan descriptor write at array element `handle` is
an elided external effect (the `view` argument is an opaque id). -/
def add_bindless_image_view (self : VickiRenderClient) (view : Nat) :
    Nat × VickiRenderClient :=
  let _ := view
  (self.next_bindless_image_id % U32,
    { self with next_bindless_image_id := self.next_bindless_image_id + 1 })

/-- Model of `add_image_lut` (render_client.rs lines 363-376): push the new
lut (whose procedurally computed image is the opaque id `lut_image`), register
its view, then `assert_eq!(handle.0 as usize, id)`; the assertion failure is
`none`.  The assigned handle is returned alongside the state for the
bookkeeping theorems (the source discards it after the assertion). -/
def add_image_lut (self : VickiRenderClient) (lut_image : Nat) (id : Nat) :
    Option (Nat × VickiRenderClient) :=
  let self := { self with image_luts := self.image_luts ++ [⟨lut_image⟩] }
  let hs := add_bindless_image_view self lut_image
  if hs.1 = id then some hs else none

/-- Model of `add_image` (render_client.rs lines 378-400): choose the format
from the gamma flag, create the image (external upload elided), register its
view, keep the image alive, and return the handle. -/
def add_image (self : VickiRenderClient) (src : RawRgba8Image) (params : TexParams) :
    Nat × VickiRenderClient :=
  let format := match params.gamma with
    | .Linear => VkFormat.R8G8B8A8_UNORM
    | .Srgb => VkFormat.R8G8B8A8_SRGB
  let image : Image := { format := format, extent := src.dimensions }
  let hs := add_bindless_image_view self 0
  (hs.1, { hs.2 with bindless_images := hs.2.bindless_images ++ [image] })

/-- Model of `add_mesh` (render_client.rs lines 402-472).  The six streams are
appended in source order (indices, verts, uvs, material ids, colors,
materials) through the packer; the returned offsets are truncated to `u32`,
the bottom-level acceleration description is built (with
`max_vertex = mesh.indices.iter().max()`, whose `expect` on an empty index
array is a fatal failure), the descriptor record is written at slot
`mesh_idx = self.meshes.len()` of the `MAX_GPU_MESHES`-element table (an
out-of-range slot index is a fatal failure), and the registry entries are
pushed.  Any fatal failure yields `none`. -/
def add_mesh (self : VickiRenderClient) (mesh : PackedTriangleMesh) :
    Option VickiRenderClient :=
  let mesh_idx := self.meshes.length
  let a1 := append_buffer_data 4 4 self.vertex_buffer (mesh.indices.map u32_bytes)
  let a2 := append_buffer_data mesh.verts.align mesh.verts.size a1.2 mesh.verts.data
  let a3 := append_buffer_data mesh.uvs.align mesh.uvs.size a2.2 mesh.uvs.data
  let a4 := append_buffer_data mesh.material_ids.align mesh.material_ids.size a3.2
    mesh.material_ids.data
  let a5 := append_buffer_data mesh.colors.align mesh.colors.size a4.2 mesh.colors.data
  let a6 := append_buffer_data mesh.materials.align mesh.materials.size a5.2
    mesh.materials.data
  match a1.1, a2.1, a3.1, a4.1, a5.1, a6.1 with
  | some i1, some i2, some i3, some i4, some i5, some i6 =>
    let vertex_index_offset := i1 % U32
    let vertex_core_offset := i2 % U32
    let vertex_uv_offset := i3 % U32
    let vertex_mat_offset := i4 % U32
    let vertex_aux_offset := i5 % U32
    let mat_data_offset := i6 % U32
    let base_da := self.vertex_buffer_da
    let vb_da := (base_da + vertex_core_offset) % USIZE
    let ib_da := (base_da + vertex_index_offset) % USIZE
    match mesh.indices.max? with
    | some max_vertex =>
      let blas := RayTracingAcceleration.bottom
        { geometries := [{
            geometry_type := .Triangle
            vertex_buffer := vb_da
            index_buffer := ib_da
            vertex_format := .R32G32B32_SFLOAT
            vertex_stride := mesh.verts.size
            parts := [{
              index_count := mesh.indices.length
              index_offset := 0
              max_vertex := max_vertex }] }] }
      if mesh_idx < MAX_GPU_MESHES then
        some { self with
          vertex_buffer := a6.2
          mesh_buffer := self.mesh_buffer.set mesh_idx
            { vertex_core_offset := vertex_core_offset
              vertex_uv_offset := vertex_uv_offset
              vertex_mat_offset := vertex_mat_offset
              vertex_aux_offset := vertex_aux_offset
              mat_data_offset := mat_data_offset
              index_offset := vertex_index_offset }
          meshes := self.meshes ++ [{
            index_buffer_offset := vertex_index_offset
            index_count := mesh.indices.length % U32 }]
          mesh_blas := self.mesh_blas ++ [blas] }
      else
        none
    | none => none
  | _, _, _, _, _, _ => none

/-- Fold of `add_mesh` over a list of meshes; a fatal failure propagates. -/
def addMeshes (self : VickiRenderClient) : List PackedTriangleMesh → Option VickiRenderClient
  | [] => some self
  | m :: ms =>
    match add_mesh self m with
    | some self => addMeshes self ms
    | none => none

/-- Model of `build_ray_tracing_top_level_acceleration` (render_client.rs
lines 474-483): one top-level structure instancing every entry of `mesh_blas`
in order, stored into `tlas`, replacing whatever was there. -/
def build_ray_tracing_top_level_acceleration (self : VickiRenderClient) : VickiRenderClient :=
  { self with tlas := some (.top self.mesh_blas) }

/-- Model of `reset_frame_idx` (render_client.rs lines 485-487). -/
def reset_frame_idx (self : VickiRenderClient) : VickiRenderClient :=
  { self with frame_idx := 0 }

/-- Assignment to the public `render_mode` field (render_client.rs line 76). -/
def set_render_mode (self : VickiRenderClient) (m : RenderMode) : VickiRenderClient :=
  { self with render_mode := m }

/-- Images known to a render graph under construction: imported with an access
state, or created inside the graph with a format. -/
inductive RgImage where
  | imported (resource : Nat) (access : AccessType)
  | created (format : VkFormat)
deriving Repr, DecidableEq

/-- Render-graph passes recorded by `prepare_render_graph_reference`; pass
arguments are image/acceleration handles inside the graph (the constant clear
color `[0.0; 4]` and the bindless descriptor set argument are elided). -/
inductive RgPass where
  | clear_color (img : Nat)
  | reference_path_trace (accum : Nat) (tlas : Nat)
  | normalize_accum (src : Nat) (dst : Nat)
deriving Repr, DecidableEq

/-- Interface model of the external render-graph builder: the images and
acceleration structures registered so far, the recorded passes, and the
exported images (each with the access state requested at export).  Handles
are positions in the respective lists. -/
structure RenderGraph where
  images : List RgImage
  accels : List (RayTracingAcceleration × AccessType)
  passes : List RgPass
  exports : List (Nat × AccessType)
deriving Repr

/-- Graph import of an image resource: returns its handle. -/
def RenderGraph.import_image (rg : RenderGraph) (resource : Nat) (access : AccessType) :
    Nat × RenderGraph :=
  (rg.images.length, { rg with images := rg.images ++ [.imported resource access] })

/-- Graph import of an acceleration structure: returns its handle. -/
def RenderGraph.import_ray_tracing_acceleration (rg : RenderGraph)
    (a : RayTracingAcceleration) (access : AccessType) : Nat × RenderGraph :=
  (rg.accels.length, { rg with accels := rg.accels ++ [(a, access)] })

/-- Graph export of an image with a requested access state: returns the
export handle. -/
def RenderGraph.export_image (rg : RenderGraph) (img : Nat) (access : AccessType) :
    Nat × RenderGraph :=
  (rg.exports.length, { rg with exports := rg.exports ++ [(img, access)] })

/-- Recording of a `clear_color` pass on an image. -/
def RenderGraph.clear_color (rg : RenderGraph) (img : Nat) : RenderGraph :=
  { rg with passes := rg.passes ++ [.clear_color img] }

/-- Recording of the `reference_path_trace` pass. -/
def RenderGraph.reference_path_trace (rg : RenderGraph) (accum tlas : Nat) : RenderGraph :=
  { rg with passes := rg.passes ++ [.reference_path_trace accum tlas] }

/-- Recording of the `normalize_accum` pass: creates the normalized output
image in the graph and returns its handle. -/
def RenderGraph.normalize_accum (rg : RenderGraph) (src : Nat) (format : VkFormat) :
    Nat × RenderGraph :=
  (rg.images.length,
    { rg with
      images := rg.images ++ [.created format]
      passes := rg.passes ++ [.normalize_accum src rg.images.length] })

/-- Model of `prepare_render_graph_reference` (render_client.rs lines
552-587): import the accumulation image at its last-known access state; if a
reset was requested, consume the flag and record a clear pass; import the
top-level acceleration structure (`unwrap` of a missing one is a fatal
failure), record the path-trace and normalize passes, store the accumulation
export handle as pending, and return the export handle of the normalized
image together with the updated client and graph. -/
def prepare_render_graph_reference (self : VickiRenderClient) (rg : RenderGraph) :
    Option (Nat × VickiRenderClient × RenderGraph) :=
  let ia := rg.import_image self.accum_img.resource self.accum_img.access_type
  let accum_handle := ia.1
  let sr :=
    if self.reset_reference_accumulation then
      ({ self with reset_reference_accumulation := false },
        RenderGraph.clear_color ia.2 accum_handle)
    else
      (self, ia.2)
  match sr.1.tlas with
  | none => none
  | some t =>
    let it := RenderGraph.import_ray_tracing_acceleration sr.2 t .AnyShaderReadOther
    let rg2 := RenderGraph.reference_path_trace it.2 accum_handle it.1
    let na := RenderGraph.normalize_accum rg2 accum_handle .R16G16B16A16_SFLOAT
    let ea := RenderGraph.export_image na.2 accum_handle .Nothing
    let self2 := { sr.1 with accum_img := { sr.1.accum_img with last_rg_handle := some ea.1 } }
    let el := RenderGraph.export_image ea.2 na.1 .AnyShaderReadSampledImageOrUniformTexelBuffer
    some (el.1, self2, el.2)

/-- Interface model of `RetiredRenderGraph`: the final access state the
retired graph reports for each exported handle (`get_image(handle).1`). -/
structure RetiredRenderGraph where
  image_access : Nat → AccessType

/-- Access state reported for an export handle by a retired graph. -/
def RetiredRenderGraph.get_image (rg : RetiredRenderGraph) (handle : Nat) : AccessType :=
  rg.image_access handle

/-- Model of `retire_render_graph` (render_client.rs lines 652-658): `take`
the pending export handle, and if one was pending refresh the accumulation
access state from the retired graph; then advance the frame index by one with
`u32` wrap-around (`overflowing_add`). -/
def retire_render_graph (self : VickiRenderClient) (retired_rg : RetiredRenderGraph) :
    VickiRenderClient :=
  let self :=
    match self.accum_img.last_rg_handle with
    | some handle =>
      { self with accum_img :=
        { self.accum_img with
          access_type := retired_rg.get_image handle
          last_rg_handle := none } }
    | none => self
  { self with frame_idx := (self.frame_idx + 1) % U32 }

/-- One image-registration call: either `add_image` (with its source pixels
and params) or `add_image_lut` (with the lut image id and the expected
handle). -/
inductive RegistrationCall where
  | image (src : RawRgba8Image) (params : TexParams)
  | lut (lut_image : Nat) (id : Nat)

/-- Run a sequence of image registrations, collecting the assigned bindless
handles; a failed `add_image_lut` assertion propagates as `none`. -/
def runRegistrations (self : VickiRenderClient) :
    List RegistrationCall → Option (List Nat × VickiRenderClient)
  | [] => some ([], self)
  | .image src params :: rest =>
    let r := add_image self src params
    match runRegistrations r.2 rest with
    | some (hs, fin) => some (r.1 :: hs, fin)
    | none => none
  | .lut lut_image id :: rest =>
    match add_image_lut self lut_image id with
    | some r =>
      match runRegistrations r.2 rest with
      | some (hs, fin) => some (r.1 :: hs, fin)
      | none => none
    | none => none

/-- The six packer calls issued by `add_mesh`, in source order: indices
(`u32` layout), verts, uvs, material ids, colors, materials
(render_client.rs lines 415-420).  `add_mesh` computes exactly the chain
`runAppends st (meshStreamCalls mesh)` on the geometry arena. -/
def meshStreamCalls (mesh : PackedTriangleMesh) : List AppendCall :=
  [⟨4, 4, mesh.indices.map u32_bytes⟩,
    ⟨mesh.verts.align, mesh.verts.size, mesh.verts.data⟩,
    ⟨mesh.uvs.align, mesh.uvs.size, mesh.uvs.data⟩,
    ⟨mesh.material_ids.align, mesh.material_ids.size, mesh.material_ids.data⟩,
    ⟨mesh.colors.align, mesh.colors.size, mesh.colors.data⟩,
    ⟨mesh.materials.align, mesh.materials.size, mesh.materials.data⟩]

/-- Concrete renderer state used by witness theorems: the bookkeeping state of
a fresh client as set up by `VickiRenderClient::new` (render_client.rs lines
292-311), with the geometry arena shrunk to 64 zeroed bytes so witnesses stay
small; resource ids and the arena device address are arbitrary opaque
values. -/
def sampleClient : VickiRenderClient :=
  { accum_img := TemporalImage.new 0
    reset_reference_accumulation := false
    meshes := []
    mesh_blas := []
    tlas := none
    mesh_buffer := List.replicate MAX_GPU_MESHES ⟨0, 0, 0, 0, 0, 0⟩
    vertex_buffer := ⟨List.replicate 64 0, 0⟩
    vertex_buffer_da := 4096
    bindless_images := []
    image_luts := []
    next_bindless_image_id := 0
    render_mode := .Standard
    frame_idx := 0 }

/-- Concrete mesh used by witness theorems: three `u32` indices and small
streams with explicit layouts. -/
def sampleMesh : PackedTriangleMesh :=
  { indices := [0, 2, 1]
    verts := ⟨4, 4, [[1, 1, 1, 1], [2, 2, 2, 2], [3, 3, 3, 3]]⟩
    uvs := ⟨2, 2, [[5, 5], [6, 6], [7, 7]]⟩
    material_ids := ⟨4, 4, [[9, 9, 9, 9]]⟩
    colors := ⟨1, 1, [[8]]⟩
    materials := ⟨8, 8, [[4, 4, 4, 4, 4, 4, 4, 4]]⟩ }

/-- Side conditions under which one packer call is within the model's faithful
range: the element alignment is a power of two representable in a `usize`,
every element really occupies `size` bytes, and rounding the cursor up cannot
overflow a `usize` (with `len` the destination length that bounds the
cursor). -/
def GoodCall (len : Nat) (c : AppendCall) : Prop :=
  (∃ k, k < 64 ∧ c.align = 2 ^ k) ∧ (∀ e ∈ c.data, e.length = c.size) ∧ len + c.align ≤ USIZE

theorem count_ones64_two_pow (k : Nat) (hk : k < 64) : count_ones64 (2 ^ k) = 1 := by
  have hfil : (List.range 64).filter (fun i => (2 ^ k).testBit i)
      = (List.range 64).filter (fun i => i == k) := by
    apply List.filter_congr
    intro i _
    by_cases h : k = i
    · simp [Nat.testBit_two_pow, h]
    · simp [Nat.testBit_two_pow, h, Ne.symm h]
  rw [count_ones64, hfil, ← List.countP_eq_length_filter]
  simpa [List.count] using
    List.count_eq_one_of_mem (List.nodup_range 64) (List.mem_range.mpr hk)

theorem land_high_mask (y k : Nat) (hk : k ≤ 64) (hy : y < 2 ^ 64) :
    y &&& (2 ^ 64 - 2 ^ k) = 2 ^ k * (y / 2 ^ k) := by
  have hmask : (2 ^ 64 - 2 ^ k) = (2 ^ (64 - k) - 1) <<< k := by
    rw [Nat.shiftLeft_eq, Nat.sub_mul, one_mul, ← pow_add, Nat.sub_add_cancel hk]
  have hrhs : 2 ^ k * (y / 2 ^ k) = (y >>> k) <<< k := by
    rw [Nat.shiftRight_eq_div_pow, Nat.shiftLeft_eq, Nat.mul_comm]
  rw [hmask, hrhs]
  apply Nat.eq_of_testBit_eq
  intro i
  rw [Nat.testBit_land, Nat.testBit_shiftLeft, Nat.testBit_shiftLeft,
    Nat.testBit_shiftRight, Nat.testBit_two_pow_sub_one]
  by_cases hik : k ≤ i
  · by_cases hi64 : i < 64
    · have h1 : i - k < 64 - k := by omega
      have h2 : k + (i - k) = i := by omega
      simp [ge_iff_le, hik, h1, h2]
    · have h1 : y.testBit i = false :=
        Nat.testBit_lt_two_pow
          (lt_of_lt_of_le hy (Nat.pow_le_pow_right (by norm_num) (by omega)))
      have h2 : y.testBit (k + (i - k)) = false := by
        have h3 : k + (i - k) = i := by omega
        rw [h3]; exact h1
      simp [ge_iff_le, hik, h1, h2]
  · simp [ge_iff_le, hik]

theorem append_buffer_data_empty (align size : Nat) (st : PackState) :
    append_buffer_data align size st [] = (some 0, st) := rfl

theorem append_buffer_data_nonempty (k size : Nat) (st : PackState)
    (data : List (List Nat)) (hk : k < 64) (hd : data ≠ []) :
    append_buffer_data (2 ^ k) size st data =
      (if ((st.written + 2 ^ k - 1) &&& (USIZE - 2 ^ k)) + data.length * size ≤
          st.bytes.length then
        (some ((st.written + 2 ^ k - 1) &&& (USIZE - 2 ^ k)),
          { bytes := writeBytes st.bytes ((st.written + 2 ^ k - 1) &&& (USIZE - 2 ^ k))
              data.flatten
            written := ((st.written + 2 ^ k - 1) &&& (USIZE - 2 ^ k)) + data.length * size })
      else
        (none, st)) := by
  have hlen : data.length ≠ 0 := by
    simpa [List.length_eq_zero] using hd
  unfold append_buffer_data
  rw [if_pos hlen, count_ones64_two_pow k hk, if_pos rfl]

theorem append_buffer_data_fail (k size : Nat) (st : PackState)
    (data : List (List Nat)) (hk : k < 64)
    (h : (append_buffer_data (2 ^ k) size st data).1 = none) :
    (append_buffer_data (2 ^ k) size st data).2 = st := by
  by_cases hd : data = []
  · rw [hd, append_buffer_data_empty] at h
    simp at h
  · rw [append_buffer_data_nonempty k size st data hk hd] at h ⊢
    by_cases hc : ((st.written + 2 ^ k - 1) &&& (USIZE - 2 ^ k)) + data.length * size ≤
        st.bytes.length
    · rw [if_pos hc] at h
      simp at h
    · rw [if_neg hc]

theorem flatten_length_of_size (data : List (List Nat)) (size : Nat)
    (h : ∀ e ∈ data, e.length = size) : data.flatten.length = data.length * size := by
  induction data with
  | nil => simp
  | cons e es ih =>
    have he : e.length = size := h e (List.mem_cons_self e es)
    have hes : ∀ x ∈ es, x.length = size := fun x hx => h x (List.mem_cons_of_mem e hx)
    simp [he, ih hes, Nat.succ_mul, Nat.add_comm]

theorem writeBytes_length (buf data : List Nat) (start : Nat)
    (h : start + data.length ≤ buf.length) :
    (writeBytes buf start data).length = buf.length := by
  simp only [writeBytes, List.length_append, List.length_take, List.length_drop]
  omega

theorem runAppends_nil (st : PackState) : runAppends st [] = ([], st) := rfl

theorem runAppends_cons (st : PackState) (c : AppendCall) (cs : List AppendCall) :
    runAppends st (c :: cs) =
      ((append_buffer_data c.align c.size st c.data).1 ::
          (runAppends (append_buffer_data c.align c.size st c.data).2 cs).1,
        (runAppends (append_buffer_data c.align c.size st c.data).2 cs).2) := rfl

theorem align_start_ge (w k len : Nat) (hk : k < 64) (hw : w ≤ len)
    (hcap : len + 2 ^ k ≤ USIZE) :
    w ≤ (w + 2 ^ k - 1) &&& (USIZE - 2 ^ k) ∧
      2 ^ k ∣ (w + 2 ^ k - 1) &&& (USIZE - 2 ^ k) := by
  have hp : 0 < 2 ^ k := Nat.two_pow_pos k
  have hU : USIZE = 2 ^ 64 := rfl
  have hy : w + 2 ^ k - 1 < 2 ^ 64 := by omega
  rw [hU, land_high_mask _ _ (Nat.le_of_lt hk) hy]
  constructor
  · have h1 := Nat.div_add_mod (w + 2 ^ k - 1) (2 ^ k)
    have h2 : (w + 2 ^ k - 1) % 2 ^ k < 2 ^ k := Nat.mod_lt _ hp
    omega
  · exact Dvd.intro _ rfl

theorem append_step (c : AppendCall) (st : PackState)
    (hg : GoodCall st.bytes.length c) (hwf : st.written ≤ st.bytes.length) :
    (append_buffer_data c.align c.size st c.data).2.bytes.length = st.bytes.length ∧
    st.written ≤ (append_buffer_data c.align c.size st c.data).2.written ∧
    (append_buffer_data c.align c.size st c.data).2.written ≤
      (append_buffer_data c.align c.size st c.data).2.bytes.length ∧
    (∀ v, (append_buffer_data c.align c.size st c.data).1 = some v →
      c.align ∣ v ∧ v ≤ st.bytes.length) ∧
    (∀ v, (append_buffer_data c.align c.size st c.data).1 = some v → c.data ≠ [] →
      st.written ≤ v ∧ v ≤ (append_buffer_data c.align c.size st c.data).2.written) := by
  obtain ⟨⟨k, hk, halign⟩, hsz, hcap⟩ := hg
  rw [halign] at hcap
  by_cases hd : c.data = []
  · rw [halign, hd, append_buffer_data_empty]
    refine ⟨rfl, le_refl _, hwf, ?_, ?_⟩
    · intro v hv
      have hv0 : v = 0 := by
        have := Option.some.inj hv
        omega
      rw [hv0]
      exact ⟨Dvd.intro 0 rfl, Nat.zero_le _⟩
    · intro v _ hne
      exact absurd rfl hne
  · rw [halign, append_buffer_data_nonempty k c.size st c.data hk hd]
    obtain ⟨hge, hdvd⟩ := align_start_ge st.written k st.bytes.length hk hwf hcap
    by_cases hle : ((st.written + 2 ^ k - 1) &&& (USIZE - 2 ^ k)) + c.data.length * c.size ≤
        st.bytes.length
    · rw [if_pos hle]
      have hflat : c.data.flatten.length = c.data.length * c.size :=
        flatten_length_of_size c.data c.size hsz
      have hwlen : (writeBytes st.bytes ((st.written + 2 ^ k - 1) &&& (USIZE - 2 ^ k))
          c.data.flatten).length = st.bytes.length := by
        apply writeBytes_length
        rw [hflat]
        exact hle
      refine ⟨hwlen, le_trans hge (Nat.le_add_right _ _), ?_, ?_, ?_⟩
      · show ((st.written + 2 ^ k - 1) &&& (USIZE - 2 ^ k)) + c.data.length * c.size ≤ _
        rw [hwlen]
        exact hle
      · intro v hv
        have := Option.some.inj hv
        rw [← this]
        exact ⟨hdvd, le_trans (Nat.le_add_right _ _) hle⟩
      · intro v hv _
        have := Option.some.inj hv
        rw [← this]
        exact ⟨hge, Nat.le_add_right _ _⟩
    · rw [if_neg hle]
      exact ⟨rfl, le_refl _, hwf, fun v hv => by simp at hv, fun v hv _ => by simp at hv⟩

theorem runAppends_spec (calls : List AppendCall) (st : PackState)
    (hwf : st.written ≤ st.bytes.length)
    (hgood : ∀ c ∈ calls, GoodCall st.bytes.length c) :
    (runAppends st calls).2.bytes.length = st.bytes.length ∧
    st.written ≤ (runAppends st calls).2.written ∧
    (runAppends st calls).2.written ≤ (runAppends st calls).2.bytes.length ∧
    (∀ p ∈ calls.zip (runAppends st calls).1, ∀ v, p.2 = some v →
      p.1.align ∣ v ∧ v ≤ st.bytes.length ∧ (p.1.data ≠ [] → st.written ≤ v)) := by
  induction calls generalizing st with
  | nil =>
    exact ⟨rfl, le_refl _, hwf, by simp [runAppends_nil]⟩
  | cons c cs ih =>
    have hgc : GoodCall st.bytes.length c := hgood c (List.mem_cons_self c cs)
    obtain ⟨hb, hw, hwb, hdvd, hoff⟩ := append_step c st hgc hwf
    have hgood1 : ∀ x ∈ cs, GoodCall (append_buffer_data c.align c.size st c.data).2.bytes.length x := by
      intro x hx
      rw [hb]
      exact hgood x (List.mem_cons_of_mem c hx)
    obtain ⟨ib, iw, iwb, ioff⟩ := ih (append_buffer_data c.align c.size st c.data).2 hwb hgood1
    rw [runAppends_cons]
    refine ⟨by rw [ib, hb], le_trans hw iw, iwb, ?_⟩
    intro p hp v hv
    rw [List.zip_cons_cons] at hp
    rcases List.mem_cons.mp hp with h | h
    · rw [h] at hv ⊢
      exact ⟨(hdvd v hv).1, (hdvd v hv).2, fun hne => (hoff v hv hne).1⟩
    · obtain ⟨h1, h2, h3⟩ := ioff p h v hv
      rw [hb] at h2
      exact ⟨h1, h2, fun hne => le_trans hw (h3 hne)⟩

theorem runAppends_pairwise (calls : List AppendCall) (st : PackState)
    (hwf : st.written ≤ st.bytes.length)
    (hgood : ∀ c ∈ calls, GoodCall st.bytes.length c) :
    List.Pairwise
      (fun p q => p.1.data ≠ [] → q.1.data ≠ [] →
        ∀ v w, p.2 = some v → q.2 = some w → v ≤ w)
      (calls.zip (runAppends st calls).1) := by
  induction calls generalizing st with
  | nil => simp [runAppends_nil]
  | cons c cs ih =>
    have hgc : GoodCall st.bytes.length c := hgood c (List.mem_cons_self c cs)
    obtain ⟨hb, hw, hwb, _, hoff⟩ := append_step c st hgc hwf
    have hgood1 : ∀ x ∈ cs, GoodCall (append_buffer_data c.align c.size st c.data).2.bytes.length x := by
      intro x hx
      rw [hb]
      exact hgood x (List.mem_cons_of_mem c hx)
    rw [runAppends_cons, List.zip_cons_cons]
    refine List.Pairwise.cons ?_ (ih (append_buffer_data c.align c.size st c.data).2 hwb hgood1)
    intro q hq hne hqne v w hv hw2
    obtain ⟨_, hvle⟩ := hoff v hv hne
    obtain ⟨_, _, _, ioff⟩ :=
      runAppends_spec cs (append_buffer_data c.align c.size st c.data).2 hwb hgood1
    obtain ⟨_, _, h1⟩ := ioff q hq w hw2
    exact le_trans hvle (h1 hqne)

/-- C1 counterexample: the claim as stated is false.  With a four-byte buffer
and cursor 0, the call sequence append one byte, append one byte, append the
empty array (all with `u8` layout, alignment `1 = 2 ^ 0`) returns the offsets
`0, 1, 0`: every alignment is a power of two, yet the returned offsets are not
monotonically non-decreasing across the calls of the sequence, because the
empty third call returns `0` after the second call returned `1`. -/
theorem C1_append_monotone_counterexample :
    (∀ c ∈ ([⟨1, 1, [[7]]⟩, ⟨1, 1, [[8]]⟩, ⟨1, 1, []⟩] : List AppendCall),
      c.align = 2 ^ 0) ∧
    (runAppends ⟨[0, 0, 0, 0], 0⟩ [⟨1, 1, [[7]]⟩, ⟨1, 1, [[8]]⟩, ⟨1, 1, []⟩]).1 =
      [some 0, some 1, some 0] ∧
    ¬ List.Pairwise (fun a b => ∀ v w, a = some v → b = some w → v ≤ w)
      (runAppends ⟨[0, 0, 0, 0], 0⟩ [⟨1, 1, [[7]]⟩, ⟨1, 1, [[8]]⟩, ⟨1, 1, []⟩]).1 := by
  refine ⟨by decide, by decide, ?_⟩
  intro h
  have hoffs : (runAppends ⟨[0, 0, 0, 0], 0⟩
      [⟨1, 1, [[7]]⟩, ⟨1, 1, [[8]]⟩, ⟨1, 1, []⟩]).1 = [some 0, some 1, some 0] := by decide
  rw [hoffs] at h
  have h12 := (List.pairwise_cons.mp (List.pairwise_cons.mp h).2).1
  have h10 := h12 (some 0) (by simp) 1 0 rfl rfl
  omega

/-- C1 (amended): for every sequence of packer calls whose element alignments
are powers of two, every returned offset is a multiple of that call's
alignment, and the offsets returned by calls with a non-empty element array
are monotonically non-decreasing across the sequence; a call with an empty
element array returns offset 0 without touching the state (so its offset need
not respect the monotone order).  The hypotheses bound the model to the
faithful `usize` range: the cursor starts within the buffer, each alignment is
`2 ^ k` with `k < 64`, each element occupies its size in bytes, and the buffer
length plus alignment cannot overflow a `usize`. -/
theorem C1_append_offsets_aligned_monotone (st : PackState) (calls : List AppendCall)
    (hwf : st.written ≤ st.bytes.length)
    (hgood : ∀ c ∈ calls, GoodCall st.bytes.length c) :
    (∀ p ∈ calls.zip (runAppends st calls).1, ∀ v, p.2 = some v → p.1.align ∣ v) ∧
    List.Pairwise
      (fun p q => p.1.data ≠ [] → q.1.data ≠ [] →
        ∀ v w, p.2 = some v → q.2 = some w → v ≤ w)
      (calls.zip (runAppends st calls).1) ∧
    (∀ (align size : Nat) (st0 : PackState),
      append_buffer_data align size st0 [] = (some 0, st0)) := by
  refine ⟨?_, runAppends_pairwise calls st hwf hgood, append_buffer_data_empty⟩
  intro p hp v hv
  exact ((runAppends_spec calls st hwf hgood).2.2.2 p hp v hv).1

/-- C1 witness: the amended theorem applied to a concrete two-call sequence
(u32 layout then u16 layout) on a 16-byte buffer. -/
theorem C1_append_offsets_witness :
    ((⟨[0, 0, 0, 0, 0, 0, 0, 0, 0, 0, 0, 0, 0, 0, 0, 0], 0⟩ : PackState).written ≤ 16) ∧
    ((∀ p ∈ ([⟨4, 4, [[1, 2, 3, 4]]⟩, ⟨2, 2, [[5, 6]]⟩] : List AppendCall).zip
        (runAppends ⟨[0, 0, 0, 0, 0, 0, 0, 0, 0, 0, 0, 0, 0, 0, 0, 0], 0⟩
          [⟨4, 4, [[1, 2, 3, 4]]⟩, ⟨2, 2, [[5, 6]]⟩]).1, ∀ v, p.2 = some v → p.1.align ∣ v) ∧
      List.Pairwise
        (fun p q => p.1.data ≠ [] → q.1.data ≠ [] →
          ∀ v w, p.2 = some v → q.2 = some w → v ≤ w)
        (([⟨4, 4, [[1, 2, 3, 4]]⟩, ⟨2, 2, [[5, 6]]⟩] : List AppendCall).zip
          (runAppends ⟨[0, 0, 0, 0, 0, 0, 0, 0, 0, 0, 0, 0, 0, 0, 0, 0], 0⟩
            [⟨4, 4, [[1, 2, 3, 4]]⟩, ⟨2, 2, [[5, 6]]⟩]).1) ∧
      (∀ (align size : Nat) (st0 : PackState),
        append_buffer_data align size st0 [] = (some 0, st0))) := by
  refine ⟨by decide, ?_⟩
  apply C1_append_offsets_aligned_monotone
  · decide
  · intro c hc
    rcases List.mem_cons.mp hc with h | h
    · subst h
      exact ⟨⟨2, by omega, by decide⟩, by decide, by decide⟩
    · rcases List.mem_cons.mp h with h2 | h2
      · subst h2
        exact ⟨⟨1, by omega, by decide⟩, by decide, by decide⟩
      · exact absurd h2 (List.not_mem_nil c)

/-- C3: if the aligned start plus the total byte length of a non-empty append
would exceed the destination region, `append_buffer_data` fails the in-bounds
assertion before copying anything: the result is fatal (`none`) and the
returned state is exactly the input state, buffer contents and cursor
untouched. -/
theorem C3_append_overflow_fatal_no_partial_write (k size : Nat) (st : PackState)
    (data : List (List Nat)) (hk : k < 64) (hd : data ≠ [])
    (hover : st.bytes.length <
      ((st.written + 2 ^ k - 1) &&& (USIZE - 2 ^ k)) + data.length * size) :
    append_buffer_data (2 ^ k) size st data = (none, st) := by
  rw [append_buffer_data_nonempty k size st data hk hd, if_neg (by omega)]

/-- C3 witness: appending one `u8` to a full zero-length buffer fails fatally
and returns the state unchanged. -/
theorem C3_append_overflow_witness :
    (0 < 64) ∧ (([[5]] : List (List Nat)) ≠ []) ∧
    ((⟨[], 0⟩ : PackState).bytes.length <
      (((⟨[], 0⟩ : PackState).written + 2 ^ 0 - 1) &&& (USIZE - 2 ^ 0)) +
        ([[5]] : List (List Nat)).length * 1) ∧
    append_buffer_data (2 ^ 0) 1 ⟨[], 0⟩ [[5]] = (none, ⟨[], 0⟩) :=
  ⟨by decide, by decide, by decide,
    C3_append_overflow_fatal_no_partial_write 0 1 ⟨[], 0⟩ [[5]] (by decide) (by decide)
      (by decide)⟩

theorem add_mesh_success_spec (self : VickiRenderClient) (mesh : PackedTriangleMesh)
    (self1 : VickiRenderClient) (h : add_mesh self mesh = some self1) :
    ∃ i1 i2 i3 i4 i5 i6 mv,
      (runAppends self.vertex_buffer (meshStreamCalls mesh)).1 =
        [some i1, some i2, some i3, some i4, some i5, some i6] ∧
      mesh.indices.max? = some mv ∧
      self.meshes.length < MAX_GPU_MESHES ∧
      self1 = { self with
        vertex_buffer := (runAppends self.vertex_buffer (meshStreamCalls mesh)).2
        mesh_buffer := self.mesh_buffer.set self.meshes.length
          { vertex_core_offset := i2 % U32
            vertex_uv_offset := i3 % U32
            vertex_mat_offset := i4 % U32
            vertex_aux_offset := i5 % U32
            mat_data_offset := i6 % U32
            index_offset := i1 % U32 }
        meshes := self.meshes ++ [{ index_buffer_offset := i1 % U32
                                    index_count := mesh.indices.length % U32 }]
        mesh_blas := self.mesh_blas ++ [.bottom { geometries := [{
            geometry_type := .Triangle
            vertex_buffer := (self.vertex_buffer_da + i2 % U32) % USIZE
            index_buffer := (self.vertex_buffer_da + i1 % U32) % USIZE
            vertex_format := .R32G32B32_SFLOAT
            vertex_stride := mesh.verts.size
            parts := [{ index_count := mesh.indices.length
                        index_offset := 0
                        max_vertex := mv }] }] }] } := by
  simp only [add_mesh] at h
  split at h
  case _ i1 i2 i3 i4 i5 i6 heq1 heq2 heq3 heq4 heq5 heq6 =>
    split at h
    case _ mv heqm =>
      split at h
      case _ hlt =>
        refine ⟨i1, i2, i3, i4, i5, i6, mv, ?_, heqm, hlt, ?_⟩
        · show [_, _, _, _, _, _] = _
          rw [heq1, heq2, heq3, heq4, heq5, heq6]
        · exact (Option.some.inj h).symm
      case _ => exact Option.noConfusion h
    case _ => exact Option.noConfusion h
  case _ => exact Option.noConfusion h

theorem add_mesh_success_counts (self : VickiRenderClient) (mesh : PackedTriangleMesh)
    (self1 : VickiRenderClient) (h : add_mesh self mesh = some self1) :
    self1.mesh_blas.length = self.mesh_blas.length + 1 ∧
    self1.meshes.length = self.meshes.length + 1 := by
  obtain ⟨i1, i2, i3, i4, i5, i6, mv, _, _, _, hrec⟩ := add_mesh_success_spec self mesh self1 h
  rw [hrec]
  simp

theorem addMeshes_blas_length (ms : List PackedTriangleMesh) (self self1 : VickiRenderClient)
    (h : addMeshes self ms = some self1) :
    self1.mesh_blas.length = self.mesh_blas.length + ms.length := by
  induction ms generalizing self with
  | nil =>
    have : self = self1 := Option.some.inj h
    rw [this]
    rfl
  | cons m ms ih =>
    unfold addMeshes at h
    split at h
    case _ mid hmid =>
      have h1 := ih mid h
      have h2 := (add_mesh_success_counts self m mid hmid).1
      rw [h1, h2]
      simp [List.length_cons]
      omega
    case _ => exact Option.noConfusion h

/-- C6: building the top-level acceleration structure stores a structure whose
instance list is exactly the current bottom-level registry, in order, fully
replacing any previously stored structure (the result does not depend on the
old `tlas` field); and after successfully adding `N` further meshes the
instance count of a fresh build is the old registry size plus `N` (so `0`,
`1`, `2`, … from an empty registry). -/
theorem C6_tlas_instances_from_registry (self : VickiRenderClient) :
    (build_ray_tracing_top_level_acceleration self).tlas =
      some (.top self.mesh_blas) ∧
    (∀ old : Option RayTracingAcceleration,
      build_ray_tracing_top_level_acceleration { self with tlas := old } =
        build_ray_tracing_top_level_acceleration self) ∧
    (∀ (ms : List PackedTriangleMesh) (self1 : VickiRenderClient),
      addMeshes self ms = some self1 →
      ((build_ray_tracing_top_level_acceleration self1).tlas.map
          (fun t => t.instances.length)) =
        some (self.mesh_blas.length + ms.length)) := by
  refine ⟨rfl, fun old => rfl, ?_⟩
  intro ms self1 h
  have h1 := addMeshes_blas_length ms self self1 h
  show some (self1.mesh_blas.length) = _
  rw [h1]

/-- C6 witness: from the sample client (empty registry) building yields zero
instances, and after adding one concrete mesh the instance count is one. -/
theorem C6_tlas_witness :
    (build_ray_tracing_top_level_acceleration sampleClient).tlas =
      some (.top sampleClient.mesh_blas) ∧
    addMeshes sampleClient [sampleMesh] ≠ none ∧
    (∀ self1, addMeshes sampleClient [sampleMesh] = some self1 →
      ((build_ray_tracing_top_level_acceleration self1).tlas.map
          (fun t => t.instances.length)) = some 1) := by
  refine ⟨(C6_tlas_instances_from_registry sampleClient).1, ?_, ?_⟩
  · intro hcontra
    have : (addMeshes sampleClient [sampleMesh]).isNone = true := by rw [hcontra]; rfl
    have hfalse : (addMeshes sampleClient [sampleMesh]).isNone = false := by decide
    rw [hfalse] at this
    exact Bool.noConfusion this
  · intro self1 h
    exact (C6_tlas_instances_from_registry sampleClient).2.2 [sampleMesh] self1 h

/-- C5: every `retire_render_graph` call sets the frame index to the old value
plus one reduced modulo `2 ^ 32` (the `u32` `overflowing_add`); in particular
from the maximum representable `u32` value `2 ^ 32 - 1` it wraps to `0`
without failing. -/
theorem C5_retire_increments_frame_idx_mod_u32 (self : VickiRenderClient)
    (rg : RetiredRenderGraph) :
    (retire_render_graph self rg).frame_idx = (self.frame_idx + 1) % U32 ∧
    (self.frame_idx = U32 - 1 → (retire_render_graph self rg).frame_idx = 0) := by
  have h1 : (retire_render_graph self rg).frame_idx = (self.frame_idx + 1) % U32 := by
    unfold retire_render_graph
    rcases hh : self.accum_img.last_rg_handle with _ | handle <;> rfl
  refine ⟨h1, fun h => ?_⟩
  rw [h1, h]
  show (2 ^ 32 - 1 + 1) % 2 ^ 32 = 0
  omega

/-- C5 witness: retiring at frame index `2 ^ 32 - 1` wraps to `0`. -/
theorem C5_retire_wrap_witness :
    (retire_render_graph { sampleClient with frame_idx := U32 - 1 }
      ⟨fun _ => .Nothing⟩).frame_idx = 0 :=
  (C5_retire_increments_frame_idx_mod_u32 { sampleClient with frame_idx := U32 - 1 }
    ⟨fun _ => .Nothing⟩).2 rfl

/-- C9: assigning the `render_mode` field any number of times leaves the frame
index unchanged, and `reset_frame_idx` sets the frame index to `0` regardless
of the current mode while leaving every other field of the renderer state
unchanged. -/
theorem C9_mode_switch_and_reset_frame_idx (self : VickiRenderClient) :
    (∀ modes : List RenderMode,
      (modes.foldl set_render_mode self).frame_idx = self.frame_idx) ∧
    (reset_frame_idx self).frame_idx = 0 ∧
    (reset_frame_idx self).render_mode = self.render_mode ∧
    (reset_frame_idx self).accum_img = self.accum_img ∧
    (reset_frame_idx self).reset_reference_accumulation =
      self.reset_reference_accumulation ∧
    (reset_frame_idx self).meshes = self.meshes ∧
    (reset_frame_idx self).mesh_blas = self.mesh_blas ∧
    (reset_frame_idx self).tlas = self.tlas ∧
    (reset_frame_idx self).mesh_buffer = self.mesh_buffer ∧
    (reset_frame_idx self).vertex_buffer = self.vertex_buffer ∧
    (reset_frame_idx self).vertex_buffer_da = self.vertex_buffer_da ∧
    (reset_frame_idx self).bindless_images = self.bindless_images ∧
    (reset_frame_idx self).image_luts = self.image_luts ∧
    (reset_frame_idx self).next_bindless_image_id = self.next_bindless_image_id := by
  refine ⟨?_, rfl, rfl, rfl, rfl, rfl, rfl, rfl, rfl, rfl, rfl, rfl, rfl, rfl⟩
  intro modes
  induction modes generalizing self with
  | nil => rfl
  | cons m ms ih => exact ih (set_render_mode self m)

/-- C10: retiring a render graph while no temporal export handle is pending
leaves the accumulation image's last-known access state unchanged and the
pending handle empty, while the frame index is still incremented (modulo
`2 ^ 32`). -/
theorem C10_retire_no_pending_handle (self : VickiRenderClient)
    (rg : RetiredRenderGraph) (h : self.accum_img.last_rg_handle = none) :
    (retire_render_graph self rg).accum_img.access_type =
      self.accum_img.access_type ∧
    (retire_render_graph self rg).accum_img.last_rg_handle = none ∧
    (retire_render_graph self rg).frame_idx = (self.frame_idx + 1) % U32 := by
  unfold retire_render_graph
  rw [h]
  exact ⟨rfl, h, rfl⟩

/-- C10 witness: the theorem applied to the sample client, whose pending
handle is empty. -/
theorem C10_retire_no_pending_witness :
    (sampleClient.accum_img.last_rg_handle = none) ∧
    ((retire_render_graph sampleClient ⟨fun _ => .Nothing⟩).accum_img.access_type =
      sampleClient.accum_img.access_type ∧
    (retire_render_graph sampleClient ⟨fun _ => .Nothing⟩).accum_img.last_rg_handle =
      none ∧
    (retire_render_graph sampleClient ⟨fun _ => .Nothing⟩).frame_idx =
      (sampleClient.frame_idx + 1) % U32) :=
  ⟨rfl, C10_retire_no_pending_handle sampleClient ⟨fun _ => .Nothing⟩ rfl⟩

theorem runRegistrations_spec (calls : List RegistrationCall) (self : VickiRenderClient)
    (hs : List Nat) (fin : VickiRenderClient)
    (h : runRegistrations self calls = some (hs, fin)) :
    hs = (List.range calls.length).map
      (fun j => (self.next_bindless_image_id + j) % U32) ∧
    fin.next_bindless_image_id = self.next_bindless_image_id + calls.length := by
  induction calls generalizing self hs fin with
  | nil =>
    injection Option.some.inj h with hhs hfin
    rw [← hhs, ← hfin]
    exact ⟨rfl, rfl⟩
  | cons c cs ih =>
    have hnext : ∀ (st : VickiRenderClient) (j : Nat),
        (st.next_bindless_image_id + 1 + j) % U32 =
          (st.next_bindless_image_id + (j + 1)) % U32 := by
      intro st j
      have harith : st.next_bindless_image_id + 1 + j =
          st.next_bindless_image_id + (j + 1) := by
        omega
      rw [harith]
    cases c with
    | image src params =>
      simp only [runRegistrations] at h
      split at h
      case _ hs2 p heq =>
        injection Option.some.inj h with hhs hfin
        rw [← hhs, ← hfin]
        obtain ⟨ih1, ih2⟩ := ih (add_image self src params).2 hs2 p heq
        constructor
        · rw [ih1]
          show self.next_bindless_image_id % U32 :: _ = _
          rw [List.length_cons, List.range_succ_eq_map, List.map_cons, List.map_map]
          refine congrArg₂ _ (by rw [Nat.add_zero]) ?_
          apply List.map_congr_left
          intro j _
          show ((add_image self src params).2.next_bindless_image_id + j) % U32 =
            (self.next_bindless_image_id + (j + 1)) % U32
          exact hnext self j
        · rw [ih2]
          show self.next_bindless_image_id + 1 + cs.length = _
          rw [List.length_cons]
          omega
      case _ => exact Option.noConfusion h
    | lut lut_image id =>
      simp only [runRegistrations] at h
      split at h
      case _ r heqr =>
        have hr : r = (self.next_bindless_image_id % U32,
            { self with
              image_luts := self.image_luts ++ [⟨lut_image⟩]
              next_bindless_image_id := self.next_bindless_image_id + 1 }) := by
          simp only [add_image_lut, add_bindless_image_view] at heqr
          split at heqr
          · exact (Option.some.inj heqr).symm
          · exact Option.noConfusion heqr
        split at h
        case _ hs2 p heq =>
          injection Option.some.inj h with hhs hfin
          rw [← hhs, ← hfin]
          obtain ⟨ih1, ih2⟩ := ih r.2 hs2 p heq
          constructor
          · rw [ih1, hr]
            rw [List.length_cons, List.range_succ_eq_map, List.map_cons, List.map_map]
            refine congrArg₂ _ (by simp) ?_
            apply List.map_congr_left
            intro j _
            exact hnext self j
          · rw [ih2, hr]
            show self.next_bindless_image_id + 1 + cs.length = _
            rw [List.length_cons]
            omega
        case _ => exact Option.noConfusion h
      case _ => exact Option.noConfusion h

/-- C4: starting from a client that has issued no bindless handle yet, any
successful sequence of `N` image registrations (`add_image` and
`add_image_lut` calls in any mix, with `N` at most `2 ^ 32`) assigns the
handles `0, 1, …, N-1` in call order, each handle equal to the number of
previously issued handles; and `add_image_lut` fails fatally whenever the
handle it would be assigned differs from the expected id. -/
theorem C4_bindless_handles_sequential (self : VickiRenderClient)
    (calls : List RegistrationCall)
    (h0 : self.next_bindless_image_id = 0) (hN : calls.length ≤ U32) :
    (∀ hs fin, runRegistrations self calls = some (hs, fin) →
      hs = List.range calls.length) ∧
    (∀ (st : VickiRenderClient) (lut_image id : Nat),
      st.next_bindless_image_id % U32 ≠ id →
      add_image_lut st lut_image id = none) := by
  constructor
  · intro hs fin h
    obtain ⟨h1, _⟩ := runRegistrations_spec calls self hs fin h
    rw [h1, h0]
    have h2 : ∀ j ∈ List.range calls.length, (0 + j) % U32 = id j := by
      intro j hj
      show (0 + j) % U32 = j
      rw [Nat.zero_add]
      exact Nat.mod_eq_of_lt (lt_of_lt_of_le (List.mem_range.mp hj) hN)
    rw [List.map_congr_left h2, List.map_id]
  · intro st lut_image id hne
    simp only [add_image_lut, add_bindless_image_view]
    rw [if_neg]
    exact hne

/-- C4 witness: from the sample client, registering a texture, then a lut
expected at id 1, then another texture yields handles 0, 1, 2; and a lut
registration expecting id 5 on a fresh client fails. -/
theorem C4_bindless_handles_witness :
    sampleClient.next_bindless_image_id = 0 ∧
    ([RegistrationCall.image ⟨[], (2, 2)⟩ ⟨.Srgb⟩,
      RegistrationCall.lut 9 1,
      RegistrationCall.image ⟨[], (1, 1)⟩ ⟨.Linear⟩] :
        List RegistrationCall).length ≤ U32 ∧
    (∀ hs fin,
      runRegistrations sampleClient
        [RegistrationCall.image ⟨[], (2, 2)⟩ ⟨.Srgb⟩,
          RegistrationCall.lut 9 1,
          RegistrationCall.image ⟨[], (1, 1)⟩ ⟨.Linear⟩] = some (hs, fin) →
      hs = List.range 3) ∧
    add_image_lut sampleClient 9 5 = none := by
  have hmain := C4_bindless_handles_sequential sampleClient
    [RegistrationCall.image ⟨[], (2, 2)⟩ ⟨.Srgb⟩,
      RegistrationCall.lut 9 1,
      RegistrationCall.image ⟨[], (1, 1)⟩ ⟨.Linear⟩] rfl (by decide)
  exact ⟨rfl, by decide, hmain.1, hmain.2 sampleClient 9 5 (by decide)⟩

theorem runAppends_offsets_le (calls : List AppendCall) (st : PackState)
    (hwf : st.written ≤ st.bytes.length)
    (hgood : ∀ c ∈ calls, GoodCall st.bytes.length c) :
    ∀ o ∈ (runAppends st calls).1, ∀ v, o = some v → v ≤ st.bytes.length := by
  induction calls generalizing st with
  | nil =>
    simp [runAppends_nil]
  | cons c cs ih =>
    have hgc : GoodCall st.bytes.length c := hgood c (List.mem_cons_self c cs)
    obtain ⟨hb, hw, hwb, hdvd, _⟩ := append_step c st hgc hwf
    have hgood1 : ∀ x ∈ cs,
        GoodCall (append_buffer_data c.align c.size st c.data).2.bytes.length x := by
      intro x hx
      rw [hb]
      exact hgood x (List.mem_cons_of_mem c hx)
    rw [runAppends_cons]
    intro o ho v hv
    rcases List.mem_cons.mp ho with h | h
    · rw [h] at hv
      exact (hdvd v hv).2
    · have := ih (append_buffer_data c.align c.size st c.data).2 hwb hgood1 o h v hv
      rw [hb] at this
      exact this

/-- C2: a successful `add_mesh` writes into the mesh descriptor table slot
`self.meshes.length` (the mesh count before insertion) exactly the six offsets
returned by the six arena appends, in the layout
(verts, uvs, material ids, colors, materials, indices) of `GpuMesh`, so
reading that slot immediately afterwards reproduces the six offsets verbatim.
The hypotheses keep the model in its faithful range (power-of-two alignments,
well-formed element sizes, cursor within the arena) and reflect the real
client configuration: an arena capacity below `2 ^ 32` (the source uses
128 MiB) so the `u32` stores do not truncate, and a descriptor table of
`MAX_GPU_MESHES` slots. -/
theorem C2_descriptor_slot_reproduces_offsets (self : VickiRenderClient)
    (mesh : PackedTriangleMesh) (self1 : VickiRenderClient)
    (hwf : self.vertex_buffer.written ≤ self.vertex_buffer.bytes.length)
    (hgood : ∀ c ∈ meshStreamCalls mesh, GoodCall self.vertex_buffer.bytes.length c)
    (hcap : self.vertex_buffer.bytes.length < U32)
    (htab : self.mesh_buffer.length = MAX_GPU_MESHES)
    (h : add_mesh self mesh = some self1) :
    ∃ i1 i2 i3 i4 i5 i6,
      (runAppends self.vertex_buffer (meshStreamCalls mesh)).1 =
        [some i1, some i2, some i3, some i4, some i5, some i6] ∧
      self1.mesh_buffer[self.meshes.length]? = some
        { vertex_core_offset := i2
          vertex_uv_offset := i3
          vertex_mat_offset := i4
          vertex_aux_offset := i5
          mat_data_offset := i6
          index_offset := i1 } := by
  obtain ⟨i1, i2, i3, i4, i5, i6, mv, hlist, hmax, hlt, hrec⟩ :=
    add_mesh_success_spec self mesh self1 h
  have hle := runAppends_offsets_le (meshStreamCalls mesh) self.vertex_buffer hwf hgood
  have hmod : ∀ i : Nat, some i ∈ (runAppends self.vertex_buffer (meshStreamCalls mesh)).1 →
      i % U32 = i := by
    intro i hi
    exact Nat.mod_eq_of_lt (lt_of_le_of_lt (hle (some i) hi i rfl) hcap)
  have hm1 : i1 % U32 = i1 := hmod i1 (by rw [hlist]; simp)
  have hm2 : i2 % U32 = i2 := hmod i2 (by rw [hlist]; simp)
  have hm3 : i3 % U32 = i3 := hmod i3 (by rw [hlist]; simp)
  have hm4 : i4 % U32 = i4 := hmod i4 (by rw [hlist]; simp)
  have hm5 : i5 % U32 = i5 := hmod i5 (by rw [hlist]; simp)
  have hm6 : i6 % U32 = i6 := hmod i6 (by rw [hlist]; simp)
  refine ⟨i1, i2, i3, i4, i5, i6, hlist, ?_⟩
  rw [hrec]
  show (self.mesh_buffer.set self.meshes.length _)[self.meshes.length]? = _
  rw [List.getElem?_set_self (by rw [htab]; exact hlt)]
  rw [hm1, hm2, hm3, hm4, hm5, hm6]

/-- C2 witness: the theorem applied to the sample client and sample mesh;
the six returned offsets are 0, 12, 24, 32, 36, 40 and the descriptor slot 0
holds them verbatim. -/
theorem C2_descriptor_slot_witness :
    (sampleClient.vertex_buffer.written ≤ sampleClient.vertex_buffer.bytes.length) ∧
    (sampleClient.vertex_buffer.bytes.length < U32) ∧
    (sampleClient.mesh_buffer.length = MAX_GPU_MESHES) ∧
    (∀ self1, add_mesh sampleClient sampleMesh = some self1 →
      ∃ i1 i2 i3 i4 i5 i6,
        (runAppends sampleClient.vertex_buffer (meshStreamCalls sampleMesh)).1 =
          [some i1, some i2, some i3, some i4, some i5, some i6] ∧
        self1.mesh_buffer[sampleClient.meshes.length]? = some
          { vertex_core_offset := i2
            vertex_uv_offset := i3
            vertex_mat_offset := i4
            vertex_aux_offset := i5
            mat_data_offset := i6
            index_offset := i1 }) := by
  refine ⟨by simp [sampleClient], by norm_num [sampleClient, U32], by simp [sampleClient], ?_⟩
  intro self1 h
  refine C2_descriptor_slot_reproduces_offsets sampleClient sampleMesh self1
    (by simp [sampleClient]) ?_ (by norm_num [sampleClient, U32]) (by simp [sampleClient]) h
  intro c hc
  rcases List.mem_cons.mp hc with h1 | h1
  · subst h1
    exact ⟨⟨2, by omega, by decide⟩, by decide, by decide⟩
  rcases List.mem_cons.mp h1 with h2 | h2
  · subst h2
    exact ⟨⟨2, by omega, by decide⟩, by decide, by decide⟩
  rcases List.mem_cons.mp h2 with h3 | h3
  · subst h3
    exact ⟨⟨1, by omega, by decide⟩, by decide, by decide⟩
  rcases List.mem_cons.mp h3 with h4 | h4
  · subst h4
    exact ⟨⟨2, by omega, by decide⟩, by decide, by decide⟩
  rcases List.mem_cons.mp h4 with h5 | h5
  · subst h5
    exact ⟨⟨0, by omega, by decide⟩, by decide, by decide⟩
  rcases List.mem_cons.mp h5 with h6 | h6
  · subst h6
    exact ⟨⟨3, by omega, by decide⟩, by decide, by decide⟩
  · exact absurd h6 (List.not_mem_nil c)

/-- C8: `add_mesh` on a mesh with an empty index array always fails fatally
(the `expect` on the empty maximum fires, modelled as `none`); an index array
that is non-empty makes that failure branch unreachable (its maximum exists);
and on every successful `add_mesh` the bottom-level acceleration structure
just registered carries one triangle geometry whose single part has
`index_count` equal to the index array length and `max_vertex` equal to the
maximum value occurring in the index array. -/
theorem C8_add_mesh_empty_fatal_max_vertex (self : VickiRenderClient)
    (mesh : PackedTriangleMesh) :
    (mesh.indices = [] → add_mesh self mesh = none) ∧
    (mesh.indices ≠ [] → (mesh.indices.max?).isSome = true) ∧
    (∀ self1, add_mesh self mesh = some self1 →
      ∃ mv, mesh.indices.max? = some mv ∧ mv ∈ mesh.indices ∧
        (∀ x ∈ mesh.indices, x ≤ mv) ∧
        ∃ g, self1.mesh_blas.getLast? = some (.bottom { geometries := [g] }) ∧
          g.parts = [{ index_count := mesh.indices.length
                       index_offset := 0
                       max_vertex := mv }]) := by
  have hmaxor : ∀ a b : Nat, a ⊔ b = a ∨ a ⊔ b = b := by
    intro a b
    simp [Nat.max_def]
    omega
  refine ⟨?_, ?_, ?_⟩
  · intro he
    rcases hr : add_mesh self mesh with _ | self1
    · rfl
    · exfalso
      obtain ⟨i1, i2, i3, i4, i5, i6, mv, _, hmax, _, _⟩ :=
        add_mesh_success_spec self mesh self1 hr
      rw [he] at hmax
      exact Option.noConfusion hmax
  · intro hne
    rcases hi : mesh.indices with _ | ⟨a, l⟩
    · exact absurd hi hne
    · rfl
  · intro self1 h
    obtain ⟨i1, i2, i3, i4, i5, i6, mv, _, hmax, _, hrec⟩ :=
      add_mesh_success_spec self mesh self1 h
    have hcond : ∀ a b c : Nat, b ⊔ c ≤ a ↔ b ≤ a ∧ c ≤ a := by
      intro a b c
      exact max_le_iff
    refine ⟨mv, hmax, List.max?_mem hmaxor hmax, ?_, ?_⟩
    · exact (List.max?_le_iff hcond hmax).mp (le_refl mv)
    · refine ⟨{ geometry_type := .Triangle
                vertex_buffer := (self.vertex_buffer_da + i2 % U32) % USIZE
                index_buffer := (self.vertex_buffer_da + i1 % U32) % USIZE
                vertex_format := .R32G32B32_SFLOAT
                vertex_stride := mesh.verts.size
                parts := [{ index_count := mesh.indices.length
                            index_offset := 0
                            max_vertex := mv }] }, ?_, rfl⟩
      rw [hrec]
      show (self.mesh_blas ++ [_]).getLast? = _
      rw [List.getLast?_append]
      rfl

/-- C8 witness: adding the sample mesh with its indices emptied fails
fatally, while the sample mesh (indices `[0, 2, 1]`) has an existing
maximum. -/
theorem C8_add_mesh_empty_witness :
    add_mesh sampleClient { sampleMesh with indices := [] } = none ∧
    (sampleMesh.indices.max?).isSome = true :=
  ⟨(C8_add_mesh_empty_fatal_max_vertex sampleClient
      { sampleMesh with indices := [] }).1 rfl,
    (C8_add_mesh_empty_fatal_max_vertex sampleClient sampleMesh).2.1 (by decide)⟩

theorem prepare_reference_eq (self : VickiRenderClient) (rg : RenderGraph)
    (t : RayTracingAcceleration) (h : self.tlas = some t) :
    prepare_render_graph_reference self rg =
      some (rg.exports.length + 1,
        { self with
          reset_reference_accumulation := false
          accum_img := { self.accum_img with last_rg_handle := some rg.exports.length } },
        { rg with
          images := rg.images ++
            [.imported self.accum_img.resource self.accum_img.access_type,
              .created .R16G16B16A16_SFLOAT]
          accels := rg.accels ++ [(t, .AnyShaderReadOther)]
          passes := rg.passes ++
            (if self.reset_reference_accumulation then
              [RgPass.clear_color rg.images.length]
            else []) ++
            [RgPass.reference_path_trace rg.images.length rg.accels.length,
              RgPass.normalize_accum rg.images.length (rg.images.length + 1)]
          exports := rg.exports ++
            [(rg.images.length, .Nothing),
              (rg.images.length + 1,
                .AnyShaderReadSampledImageOrUniformTexelBuffer)] }) := by
  cases hf : self.reset_reference_accumulation <;>
    simp [prepare_render_graph_reference, RenderGraph.import_image,
      RenderGraph.clear_color, RenderGraph.import_ray_tracing_acceleration,
      RenderGraph.reference_path_trace, RenderGraph.normalize_accum,
      RenderGraph.export_image, hf, h, List.append_assoc]

/-- C7: the reference-mode accumulation reset is one-shot.  Preparing the
reference render graph always succeeds when a top-level acceleration
structure is present, always leaves the reset flag false afterwards, and
records a clear pass on the imported accumulation image exactly when the
reset flag was set going in; consequently a second reference preparation from
the resulting state (whose flag is false) records no clear pass. -/
theorem C7_reference_reset_one_shot (self : VickiRenderClient) (rg : RenderGraph)
    (t : RayTracingAcceleration) (h : self.tlas = some t) :
    ∃ out self1 rg1,
      prepare_render_graph_reference self rg = some (out, self1, rg1) ∧
      self1.reset_reference_accumulation = false ∧
      self1.tlas = self.tlas ∧
      rg1.passes = rg.passes ++
        (if self.reset_reference_accumulation then
          [RgPass.clear_color rg.images.length]
        else []) ++
        [RgPass.reference_path_trace rg.images.length rg.accels.length,
          RgPass.normalize_accum rg.images.length (rg.images.length + 1)] ∧
      (∀ rg2 : RenderGraph, ∃ out2 self2 rg2p,
        prepare_render_graph_reference self1 rg2 = some (out2, self2, rg2p) ∧
        rg2p.passes = rg2.passes ++
          [RgPass.reference_path_trace rg2.images.length rg2.accels.length,
            RgPass.normalize_accum rg2.images.length (rg2.images.length + 1)]) := by
  refine ⟨rg.exports.length + 1, _, _, prepare_reference_eq self rg t h, rfl, rfl, rfl, ?_⟩
  intro rg2
  refine ⟨rg2.exports.length + 1, _, _, prepare_reference_eq _ rg2 t h, ?_⟩
  show rg2.passes ++ (if false then _ else []) ++ _ = _
  rw [if_neg Bool.false_ne_true, List.append_nil]

/-- C7 witness: the theorem applied to the sample client with a built
top-level structure and the reset flag set, on an empty render graph. -/
theorem C7_reference_reset_witness :
    ({ sampleClient with tlas := some (.top []), reset_reference_accumulation := true} :
      VickiRenderClient).tlas = some (.top []) ∧
    (∃ out self1 rg1,
      prepare_render_graph_reference
        { sampleClient with tlas := some (.top []), reset_reference_accumulation := true }
        ⟨[], [], [], []⟩ = some (out, self1, rg1) ∧
      self1.reset_reference_accumulation = false ∧
      self1.tlas = ({ sampleClient with
        tlas := some (.top []), reset_reference_accumulation := true} :
          VickiRenderClient).tlas ∧
      rg1.passes = ([] : List RgPass) ++
        (if ({ sampleClient with
            tlas := some (.top []), reset_reference_accumulation := true} :
              VickiRenderClient).reset_reference_accumulation then
          [RgPass.clear_color 0]
        else []) ++
        [RgPass.reference_path_trace 0 0, RgPass.normalize_accum 0 1] ∧
      (∀ rg2 : RenderGraph, ∃ out2 self2 rg2p,
        prepare_render_graph_reference self1 rg2 = some (out2, self2, rg2p) ∧
        rg2p.passes = rg2.passes ++
          [RgPass.reference_path_trace rg2.images.length rg2.accels.length,
            RgPass.normalize_accum rg2.images.length (rg2.images.length + 1)])) :=
  ⟨rfl, C7_reference_reset_one_shot
    { sampleClient with tlas := some (.top []), reset_reference_accumulation := true }
    ⟨[], [], [], []⟩ (.top []) rfl⟩

end Kajiya
